import Mathlib

/-!
Verification development for the pic32-device-file-maker core: the memory-map
resolution, register-layout and linker-placement logic.  The definitions below
are shallow embeddings of the corresponding Python functions in
`device_info.py`, `file_makers/cortexm_linker_script_maker.py`,
`file_makers/arm_mpu_linker_script_maker.py` and
`file_makers/cortexm_c_periph_header_maker.py`.
-/

/-- Mirrors the dataclass `DeviceMemoryRegion` of device_info.py. -/
structure DeviceMemoryRegion where
  name : String
  start_addr : Nat
  size : Nat
  type : String
  page_size : Nat
  external : Bool
deriving DecidableEq, Repr

/-- Mirrors the dataclass `DeviceAddressSpace` of device_info.py. -/
structure DeviceAddressSpace where
  id : String
  start_addr : Nat
  size : Nat
  mem_regions : List DeviceMemoryRegion
deriving DecidableEq, Repr

/-- The end bound `start + size` computed inline by `_remove_overlapping_memory`
(`end_i = start_i + addr_space.mem_regions[i].size`). -/
def regionEnd (r : DeviceMemoryRegion) : Nat := r.start_addr + r.size

/-- Predicate `containedIn a b` is the containment test `start_a >= start_b and end_a <= end_b`
used by both `_remove_overlapping_memory` variants. -/
def containedIn (a b : DeviceMemoryRegion) : Bool :=
  decide (b.start_addr ≤ a.start_addr ∧ regionEnd a ≤ regionEnd b)

/-- All ordered pairs (earlier, later) of a list, exactly the pairs visited by the
nested loops `for i in range(0, n): for j in range(i+1, n)` of the Cortex-M
`_remove_overlapping_memory` and by `itertools.combinations(regions, 2)` of the
MPU variant. -/
def orderedPairs {α : Type} : List α → List (α × α)
  | [] => []
  | x :: xs => xs.map (fun y => (x, y)) ++ orderedPairs xs

/-- The names one (i, j) iteration of the Cortex-M `_remove_overlapping_memory`
adds to `regions_to_remove` (cortexm_linker_script_maker.py, lines 154-159):
if region i is contained in region j remove i, else if j is contained in i
remove j. -/
def overlapRemovals (a b : DeviceMemoryRegion) : List String :=
  if containedIn a b then [a.name]
  else if containedIn b a then [b.name]
  else []

/-- The `regions_to_remove` set of the Cortex-M `_remove_overlapping_memory`,
represented as a list of names; the Python set is only ever queried for
membership, which ignores duplicates. -/
def regionsToRemove (regions : List DeviceMemoryRegion) : List String :=
  (orderedPairs regions).flatMap (fun p => overlapRemovals p.1 p.2)

/-- Cortex-M `_remove_overlapping_memory` (cortexm_linker_script_maker.py,
lines 128-172): per address space, drop every region whose name was marked and
rebuild the address space with the surviving regions in their original order. -/
def removeOverlappingMemory (address_spaces : List DeviceAddressSpace) :
    List DeviceAddressSpace :=
  address_spaces.map (fun addr_space =>
    { addr_space with
      mem_regions := addr_space.mem_regions.filter
        (fun r => decide (r.name ∉ regionsToRemove addr_space.mem_regions)) })

/-- Alias table of the MPU `_remove_overlapping_memory`: the Python
`dict[str, set[str]]` modelled as an insertion-ordered association list whose
value sets are lists queried only for membership. -/
abbrev AliasMap := List (String × List String)

/-- Models `aliases[i].add(j)` / `aliases[i] = set(j)` of the MPU
`_remove_overlapping_memory` (arm_mpu_linker_script_maker.py, lines 184-187). -/
def aliasAdd (m : AliasMap) (key value : String) : AliasMap :=
  match m with
  | [] => [(key, [value])]
  | (k, vs) :: rest =>
    if k = key then (k, if value ∈ vs then vs else vs ++ [value]) :: rest
    else (k, vs) :: aliasAdd rest key value

/-- The pair loop of the MPU `_remove_overlapping_memory`
(arm_mpu_linker_script_maker.py, lines 175-195), folded over the ordered pairs:
skip a pair whose first member is already marked; identical extents record an
alias of the first-seen region and mark the second; otherwise the contained
region of the pair is marked. -/
def mpuPairLoop :
    List (DeviceMemoryRegion × DeviceMemoryRegion) →
    List String × AliasMap → List String × AliasMap
  | [], st => st
  | (i, j) :: rest, (toRemove, aliases) =>
    if i.name ∈ toRemove then mpuPairLoop rest (toRemove, aliases)
    else if i.start_addr = j.start_addr ∧ regionEnd i = regionEnd j then
      mpuPairLoop rest (toRemove ++ [j.name], aliasAdd aliases i.name j.name)
    else if containedIn i j then mpuPairLoop rest (toRemove ++ [i.name], aliases)
    else if containedIn j i then mpuPairLoop rest (toRemove ++ [j.name], aliases)
    else mpuPairLoop rest (toRemove, aliases)

/-- Removal pass of the MPU `_remove_overlapping_memory`
(arm_mpu_linker_script_maker.py, lines 197-204): keep unmarked regions; when a
marked region is dropped, delete its alias entry if it has one. -/
def mpuFilterRegions :
    List DeviceMemoryRegion → List String → AliasMap →
    List DeviceMemoryRegion × AliasMap
  | [], _, aliases => ([], aliases)
  | r :: rest, toRemove, aliases =>
    if r.name ∈ toRemove then
      let aliases' :=
        if (aliases.lookup r.name).isSome then
          aliases.filter (fun kv => !(kv.1 == r.name))
        else aliases
      mpuFilterRegions rest toRemove aliases'
    else
      let (regs, aliases') := mpuFilterRegions rest toRemove aliases
      (r :: regs, aliases')

/-- Per-address-space iteration of the MPU `_remove_overlapping_memory`,
threading the shared alias dict through the spaces. -/
def mpuSpaceStep : List DeviceAddressSpace → AliasMap →
    List DeviceAddressSpace × AliasMap
  | [], aliases => ([], aliases)
  | sp :: rest, aliases =>
    let (toRemove, aliases1) := mpuPairLoop (orderedPairs sp.mem_regions) ([], aliases)
    let (regs, aliases2) := mpuFilterRegions sp.mem_regions toRemove aliases1
    let (spaces, aliases3) := mpuSpaceStep rest aliases2
    ({ sp with mem_regions := regs } :: spaces, aliases3)

/-- MPU `_remove_overlapping_memory` (arm_mpu_linker_script_maker.py, lines
153-211): returns the de-overlapped address spaces together with the alias
table. -/
def mpuRemoveOverlappingMemory (address_spaces : List DeviceAddressSpace) :
    List DeviceAddressSpace × AliasMap :=
  mpuSpaceStep address_spaces []

/-- Mirrors the dataclass `ParameterValue` of device_info.py. -/
structure ParameterValue where
  name : String
  value : String
  caption : String
deriving DecidableEq, Repr

/-- Mirrors the dataclass `RegisterField` of device_info.py. -/
structure RegisterField where
  name : String
  caption : String
  mask : Nat
  modes : List String
  values : List ParameterValue
deriving DecidableEq, Repr

/-- Mirrors the dataclass `RegisterGroupMember` of device_info.py. -/
structure RegisterGroupMember where
  is_subgroup : Bool
  name : String
  mode : String
  offset : Nat
  size : Nat
  count : Nat
  init_val : Nat
  caption : String
  fields : List RegisterField
deriving DecidableEq, Repr

/-- Mirrors the dataclass `RegisterGroup` of device_info.py. -/
structure RegisterGroup where
  name : String
  caption : String
  size : Nat
  modes : List String
  members : List RegisterGroupMember
deriving DecidableEq, Repr

/-- Mirrors the dataclass `RegisterGroupReference` of device_info.py. -/
structure RegisterGroupReference where
  instance_name : String
  module_name : String
  addr_space : String
  offset : Nat
deriving DecidableEq, Repr

/-- Mirrors the dataclass `PeripheralInstance` of device_info.py. -/
structure PeripheralInstance where
  name : String
  reg_group_refs : List RegisterGroupReference
  params : List ParameterValue
deriving DecidableEq, Repr

/-- Mirrors the dataclass `PeripheralGroup` of device_info.py. -/
structure PeripheralGroup where
  name : String
  id : String
  version : String
  instances : List PeripheralInstance
  reg_groups : List RegisterGroup
deriving DecidableEq, Repr

/-- One emitted line of the struct body built by `_get_register_struct`
(cortexm_c_periph_header_maker.py, lines 253-313): either a `uint8_t
unused_0xNN[gap]` padding array (the gap is a Python int and is emitted even
when negative) or a register/subgroup member declaration. -/
inductive LayoutItem where
  | pad (off : Nat) (gap : Int)
  | entry (m : RegisterGroupMember)
deriving DecidableEq, Repr

/-- The member filter of `_get_register_struct`: the loop does
`if mode and member.mode and mode != member.mode: continue`, so a member is
emitted unless a nonempty mode was requested, the member has a nonempty mode,
and the two differ. -/
def includeMember (mode : String) (m : RegisterGroupMember) : Bool :=
  decide (¬ (mode ≠ "" ∧ m.mode ≠ "" ∧ mode ≠ m.mode))

/-- The member loop of `_get_register_struct` (cortexm_c_periph_header_maker.py,
lines 272-304).  `current_offset` is the running cursor; when it differs from the
member's offset a padding item of `member.offset - current_offset` bytes is
emitted (a negative count when the member starts before the cursor) and the
cursor is set to `member.offset`; the cursor then advances by
`member.size * member.count` for arrays (`count != 0`) and by `member.size`
otherwise.  Returns the emitted items and the final cursor. -/
def structWalk (mode : String) (current_offset : Nat) :
    List RegisterGroupMember → List LayoutItem × Nat
  | [] => ([], current_offset)
  | m :: rest =>
    if includeMember mode m then
      let padItems : List LayoutItem :=
        if current_offset ≠ m.offset then
          [.pad current_offset ((m.offset : Int) - (current_offset : Int))]
        else []
      let afterMember : Nat := m.offset + m.size * (if m.count ≠ 0 then m.count else 1)
      (padItems ++ .entry m :: (structWalk mode afterMember rest).1,
        (structWalk mode afterMember rest).2)
    else
      structWalk mode current_offset rest

/-- The successive values of `current_offset` seen at the top of each emitted
member iteration of `_get_register_struct`, ending with the final cursor. -/
def structTrace (mode : String) (current_offset : Nat) :
    List RegisterGroupMember → List Nat
  | [] => [current_offset]
  | m :: rest =>
    if includeMember mode m then
      current_offset ::
        structTrace mode (m.offset + m.size * (if m.count ≠ 0 then m.count else 1)) rest
    else structTrace mode current_offset rest

/-- Function `_get_register_struct` (cortexm_c_periph_header_maker.py, lines 253-313):
run the member walk from cursor 0 and, when the final cursor is strictly below
the group's declared size, append the trailing `unused` padding of the
difference.  No other action is taken when the cursor exceeds the declared
size. -/
def registerStruct (group : RegisterGroup) (mode : String) : List LayoutItem × Nat :=
  if (structWalk mode 0 group.members).2 < group.size then
    ((structWalk mode 0 group.members).1 ++
        [.pad (structWalk mode 0 group.members).2
          ((group.size : Int) - ((structWalk mode 0 group.members).2 : Int))],
      (structWalk mode 0 group.members).2)
  else structWalk mode 0 group.members

/-- Result shape of `_get_register_group_definition`
(cortexm_c_periph_header_maker.py, lines 160-183): with modes declared, one
struct per mode wrapped in a union listing one variant per mode in declaration
order; without modes, a single struct. -/
inductive GroupDef where
  | single (layout : List LayoutItem × Nat)
  | modeUnion (variants : List (String × (List LayoutItem × Nat)))
deriving DecidableEq, Repr

/-- Function `_get_register_group_definition`: `if group.modes:` build one struct per
mode and the union over them; else a single struct built with the default empty
mode. -/
def registerGroupDefinition (group : RegisterGroup) : GroupDef :=
  if group.modes ≠ [] then
    .modeUnion (group.modes.map (fun m => (m, registerStruct group m)))
  else .single (registerStruct group "")

/-- Members emitted by a walk, in order. -/
def entriesOf (items : List LayoutItem) : List RegisterGroupMember :=
  items.filterMap (fun it =>
    match it with
    | .entry m => some m
    | .pad _ _ => none)

/-- Byte extent of one emitted struct line: the (possibly negative) padding gap,
or `size * count` for an array member and `size` otherwise. -/
def itemExtent : LayoutItem → Int
  | .pad _ gap => gap
  | .entry m => ((m.size * (if m.count ≠ 0 then m.count else 1) : Nat) : Int)

/-- Total byte extent of an emitted struct body. -/
def extentSum (items : List LayoutItem) : Int := (items.map itemExtent).sum

/-- Predicate `wellOrderedB mode c members` holds when every member the walk would emit
starts at or after the cursor reached before it: the layout has no backwards
jump. -/
def wellOrderedB (mode : String) (current_offset : Nat) :
    List RegisterGroupMember → Bool
  | [] => true
  | m :: rest =>
    if includeMember mode m then
      decide (current_offset ≤ m.offset) &&
        wellOrderedB mode (m.offset + m.size * (if m.count ≠ 0 then m.count else 1)) rest
    else wellOrderedB mode current_offset rest

/-- The Python expression `(mask & -mask).bit_length()` operates on arbitrary
precision ints with two's-complement bitwise semantics; `Int.land` has exactly
those semantics, and `bit_length` of the non-negative result is `Nat.size`. -/
def lowBit (mask : Nat) : Nat := (Int.land (mask : Int) (-(mask : Int))).toNat

/-- Computes `pos = (mask & -mask).bit_length() - 1` from `_get_bitfield_macros`
(cortexm_c_periph_header_maker.py, line 213); -1 when the mask is zero. -/
def bitfieldPos (mask : Nat) : Int := (Nat.size (lowBit mask) : Int) - 1

/-- Index of the least-significant set bit (specification-side definition used
to state what `bitfieldPos` computes). -/
def ctz (n : Nat) : Nat :=
  if h : n = 0 then 0
  else if n % 2 = 1 then 0
  else ctz (n / 2) + 1
termination_by n
decreasing_by exact Nat.div_lt_self (Nat.pos_of_ne_zero h) Nat.one_lt_two

/-- Structured value of one emitted `#define`: a plain number, the signed
position, or the field-setter expression `Msk & ((uint32_t)(v) << Pos)`. -/
inductive MacroVal where
  | num (n : Nat)
  | intval (i : Int)
  | shiftExpr (mask : Nat) (pos : Int)
deriving DecidableEq, Repr

/-- Function `_get_bitfield_macros` (cortexm_c_periph_header_maker.py, lines 202-220):
unconditionally emits the `_Msk`, `_Pos` and setter macros for a field. -/
def bitfieldMacroDefs (field_macro_name : String) (mask : Nat) :
    List (String × MacroVal) :=
  [(field_macro_name ++ "_Msk", .num mask),
   (field_macro_name ++ "_Pos", .intval (bitfieldPos mask)),
   (field_macro_name ++ "(v)", .shiftExpr mask (bitfieldPos mask))]

/-- One `MEMORY` line emitted for a fuse register by `_get_fuse_MEMORY`:
`name : ORIGIN = origin, LENGTH = length`. -/
structure FuseRegion where
  name : String
  origin : Nat
  length : Nat
deriving DecidableEq, Repr

/-- Function `_find_start_of_address_space` (cortexm_linker_script_maker.py, lines
605-613); the Python `raise ValueError` on a missing space becomes `none`. -/
def findStartOfAddressSpace (addr_spaces : List DeviceAddressSpace)
    (name : String) : Option Nat :=
  (addr_spaces.find? (fun space => space.id == name)).map (fun s => s.start_addr)

/-- The per-member emission of `_get_fuse_MEMORY` (cortexm_linker_script_maker.py,
lines 284-296): an array register (`count > 0`) gets one 4-byte region per
element at `base + offset + 4*i`; a plain register gets a single 4-byte region
at `base + offset`. -/
def fuseRegionsForMember (base_addr : Nat) (instance_name : String)
    (member : RegisterGroupMember) : List FuseRegion :=
  if member.count > 0 then
    (List.range member.count).map (fun i =>
      { name := instance_name.toLower ++ "_" ++ member.name.toLower ++ toString i
        origin := base_addr + member.offset + 4 * i
        length := 4 })
  else
    [{ name := instance_name.toLower ++ "_" ++ member.name.toLower
       origin := base_addr + member.offset
       length := 4 }]

/-- One register-group reference of `_get_fuse_MEMORY`: look up the referenced
group by module name (silently skipped when absent, `if not reg_group:
continue`), compute `base_addr = ref.offset + _find_start_of_address_space(...)`
and emit the member regions. -/
def fuseRefRegions (addr_spaces : List DeviceAddressSpace)
    (reg_groups : List RegisterGroup) (ref : RegisterGroupReference) :
    Option (List FuseRegion) :=
  match reg_groups.find? (fun g => g.name == ref.module_name) with
  | none => some []
  | some reg_group =>
    (findStartOfAddressSpace addr_spaces ref.addr_space).map (fun st =>
      reg_group.members.flatMap
        (fuseRegionsForMember (ref.offset + st) ref.instance_name))

/-- Fold of `_get_fuse_MEMORY` over all register-group references of all
instances, propagating a missing address space as failure. -/
def collectFuseRefs (addr_spaces : List DeviceAddressSpace)
    (reg_groups : List RegisterGroup) :
    List RegisterGroupReference → Option (List FuseRegion)
  | [] => some []
  | ref :: rest => do
    let rs ← fuseRefRegions addr_spaces reg_groups ref
    let more ← collectFuseRefs addr_spaces reg_groups rest
    pure (rs ++ more)

/-- Function `_get_fuse_MEMORY` (cortexm_linker_script_maker.py, lines 264-298) as the
list of emitted fixed-address regions. -/
def fuseMemoryRegions (addr_spaces : List DeviceAddressSpace)
    (fuses_periph : PeripheralGroup) : Option (List FuseRegion) :=
  collectFuseRefs addr_spaces fuses_periph.reg_groups
    (fuses_periph.instances.flatMap (fun inst => inst.reg_group_refs))

/-- Inputs of the `.heap`/`.stack` placement emitted by
`_get_standard_data_SECTIONS` (cortexm_linker_script_maker.py, lines 427-567):
the RAM region bounds, the location counter after `.bss`, and the
`__HEAP_SIZE`/`__STACK_SIZE`/`__STACKSEAL_SIZE` symbols. -/
structure RamPlanInput where
  ram_origin : Nat
  ram_length : Nat
  bss_end : Nat
  heap_size : Nat
  stack_size : Nat
  stackseal_size : Nat
deriving DecidableEq, Repr

/-- GNU ld `ALIGN(8)`: round the location counter up to the next multiple of 8. -/
def align8 (n : Nat) : Nat := ((n + 7) / 8) * 8

/-- Start of the emitted `.heap` output section: the script places `.heap`
directly after `.bss` with `. = ALIGN(8)`. -/
def heapStart (i : RamPlanInput) : Nat := align8 i.bss_end

/-- Symbol `__HeapLimit` of the emitted script: `. = ALIGN(8); . = . + __HEAP_SIZE;
. = ALIGN(8); __HeapLimit = .`. -/
def heapLimit (i : RamPlanInput) : Nat := align8 (heapStart i + i.heap_size)

/-- Symbol `__StackLimit` of the emitted script: the `.stack` section is addressed at
`ORIGIN(ram) + LENGTH(ram) - __STACK_SIZE - __STACKSEAL_SIZE`, then
`. = ALIGN(8); __StackLimit = .`. -/
def stackLimit (i : RamPlanInput) : Nat :=
  align8 (i.ram_origin + i.ram_length - i.stack_size - i.stackseal_size)

/-- Symbol `__StackTop` of the emitted script: `. = . + __STACK_SIZE; . = ALIGN(8)`. -/
def stackTop (i : RamPlanInput) : Nat := align8 (stackLimit i + i.stack_size)

/-- The link-time check the script emits in place of any Python-side failure:
`ASSERT(__StackLimit >= __HeapLimit, "RAM region overflowed with stack")`. -/
def ramAssertHolds (i : RamPlanInput) : Bool := decide (heapLimit i ≤ stackLimit i)

/-! Concrete fixtures used by witnesses and counterexamples. -/

/-- Shorthand for a plain (non-subgroup, mode-less) register member. -/
def mkReg (name : String) (offset size count : Nat) : RegisterGroupMember :=
  { is_subgroup := false, name := name, mode := "", offset := offset, size := size,
    count := count, init_val := 0, caption := "", fields := [] }

/-- Shorthand for a register member tagged with a mode. -/
def mkModeReg (name mode : String) (offset size count : Nat) : RegisterGroupMember :=
  { is_subgroup := false, name := name, mode := mode, offset := offset, size := size,
    count := count, init_val := 0, caption := "", fields := [] }

/-- Scenario C: declared size 8, modes SPI and I2C, one 4-byte register at
offset 4 in each mode. -/
def gScenC : RegisterGroup :=
  { name := "SERCOM", caption := "", size := 8, modes := ["SPI", "I2C"],
    members := [mkModeReg "CTRL_SPI" "SPI" 4 4 0, mkModeReg "CTRL_I2C" "I2C" 4 4 0] }

/-- A group whose second member starts before the cursor left by the first, and
whose members outgrow the declared size 2. -/
def gBackwards : RegisterGroup :=
  { name := "GBAD", caption := "", size := 2, modes := [],
    members := [mkReg "R1" 4 4 0, mkReg "R2" 0 4 0] }

/-- A group whose single 4-byte member overflows the declared size 2. -/
def gOverflow : RegisterGroup :=
  { name := "GOVF", caption := "", size := 2, modes := [],
    members := [mkReg "R" 0 4 0] }

/-- A well-ordered group of declared size 24 whose members end at 16, so eight
trailing padding bytes are due. -/
def gTrail : RegisterGroup :=
  { name := "GTRAIL", caption := "", size := 24, modes := [],
    members := [mkReg "A" 0 4 0, mkReg "B" 8 2 4] }

/-- Scenario D address space: fuses based at 0x00800000. -/
def spFusesD : DeviceAddressSpace :=
  { id := "fuses", start_addr := 0x00800000, size := 0x1000, mem_regions := [] }

/-- Scenario D fuse register: offset 0x10, element size 4, count 4. -/
def fuseMember4 : RegisterGroupMember := mkReg "USERROW" 0x10 4 4

/-- A fuse register with element size 8 and count 2, exposing the hard-coded
4-byte stride. -/
def fuseMember8 : RegisterGroupMember := mkReg "BIGFUSE" 0x10 8 2

/-- Scenario D register group holding the count-4 fuse register. -/
def fuseGroupD : RegisterGroup :=
  { name := "FUSES", caption := "", size := 0x20, modes := [], members := [fuseMember4] }

/-- Register group holding the size-8 fuse register. -/
def fuseGroupBad : RegisterGroup :=
  { name := "FUSES", caption := "", size := 0x20, modes := [], members := [fuseMember8] }

/-- Reference binding the FUSES group into the fuses address space at offset 0. -/
def fuseRefD : RegisterGroupReference :=
  { instance_name := "FUSES", module_name := "FUSES", addr_space := "fuses", offset := 0 }

/-- Scenario D fuses peripheral. -/
def fusePeriphD : PeripheralGroup :=
  { name := "FUSES", id := "FUSES", version := "1.0",
    instances := [{ name := "FUSES", reg_group_refs := [fuseRefD], params := [] }],
    reg_groups := [fuseGroupD] }

/-- Fuses peripheral holding the size-8 register. -/
def fusePeriphBad : PeripheralGroup :=
  { name := "FUSES", id := "FUSES", version := "1.0",
    instances := [{ name := "FUSES", reg_group_refs := [fuseRefD], params := [] }],
    reg_groups := [fuseGroupBad] }

/-- Region `[0x0, 0xA)`. -/
def rOv1 : DeviceMemoryRegion :=
  { name := "SRAM_A", start_addr := 0, size := 10, type := "ram",
    page_size := 0, external := false }

/-- Region `[0x5, 0xF)`: partially overlaps `rOv1`, neither contains the other. -/
def rOv2 : DeviceMemoryRegion :=
  { name := "SRAM_B", start_addr := 5, size := 10, type := "ram",
    page_size := 0, external := false }

/-- Region `FLASH` at `[0x0, 0x40000)`. -/
def rFLASH : DeviceMemoryRegion :=
  { name := "FLASH", start_addr := 0, size := 0x40000, type := "flash",
    page_size := 0x200, external := false }

/-- Region `NVMCTRL_FLASH`, an exact duplicate of `rFLASH`. -/
def rNVM : DeviceMemoryRegion :=
  { name := "NVMCTRL_FLASH", start_addr := 0, size := 0x40000, type := "flash",
    page_size := 0x200, external := false }

/-- Region `IMEMORIES` at `[0x0, 0x100000)`. -/
def rIMEM : DeviceMemoryRegion :=
  { name := "IMEMORIES", start_addr := 0, size := 0x100000, type := "ram",
    page_size := 0, external := false }

/-- Region `SRAM0` at `[0x0, 0x10000)`, strictly contained in `rIMEM`. -/
def rSRAM0 : DeviceMemoryRegion :=
  { name := "SRAM0", start_addr := 0, size := 0x10000, type := "ram",
    page_size := 0, external := false }

/-! Helper lemmas about the overlap-removal pair loops. -/

/-- A relation that holds for every ordered pair visited by the nested loops
holds pairwise on the list. -/
theorem pairwise_of_orderedPairs {α : Type} {R : α → α → Prop} :
    ∀ l : List α, (∀ x y, (x, y) ∈ orderedPairs l → R x y) → List.Pairwise R l := by
  intro l
  induction l with
  | nil => intro _; exact List.Pairwise.nil
  | cons x xs ih =>
    intro h
    refine List.Pairwise.cons (fun y hy => h x y ?_) (ih fun a b hab => h a b ?_)
    · simp only [orderedPairs, List.mem_append, List.mem_map]
      exact Or.inl ⟨y, hy, rfl⟩
    · simp only [orderedPairs, List.mem_append]
      exact Or.inr hab

/-- Any name one visited pair iteration marks lands in `regions_to_remove`. -/
theorem mem_regionsToRemove_of_pair {regions : List DeviceMemoryRegion}
    {a b : DeviceMemoryRegion} (hp : (a, b) ∈ orderedPairs regions)
    {n : String} (hn : n ∈ overlapRemovals a b) : n ∈ regionsToRemove regions :=
  List.mem_flatMap.mpr ⟨(a, b), hp, hn⟩

/-- If both regions of a visited pair survive the removal pass, neither is
contained in the other: containment in either direction would have marked one
of the two names. -/
theorem survivors_not_contained {l : List DeviceMemoryRegion}
    {a b : DeviceMemoryRegion} (hp : (a, b) ∈ orderedPairs l)
    (ha : a.name ∉ regionsToRemove l) (hb : b.name ∉ regionsToRemove l) :
    containedIn a b = false ∧ containedIn b a = false := by
  constructor
  · cases hab : containedIn a b with
    | false => rfl
    | true =>
      exact absurd (mem_regionsToRemove_of_pair hp (by simp [overlapRemovals, hab])) ha
  · cases hba : containedIn b a with
    | false => rfl
    | true =>
      cases hab : containedIn a b with
      | false =>
        exact absurd
          (mem_regionsToRemove_of_pair hp (by simp [overlapRemovals, hab, hba])) hb
      | true =>
        exact absurd (mem_regionsToRemove_of_pair hp (by simp [overlapRemovals, hab])) ha

/-- Strict containment of `a` in `b` rules out the reverse containment test. -/
theorem not_containedIn_rev {a b : DeviceMemoryRegion}
    (hab : containedIn a b = true)
    (hstrict : a.start_addr ≠ b.start_addr ∨ regionEnd a ≠ regionEnd b) :
    containedIn b a = false := by
  cases hba : containedIn b a with
  | false => rfl
  | true =>
    simp only [containedIn, regionEnd, decide_eq_true_eq] at hab hba
    simp only [regionEnd] at hstrict
    rcases hstrict with h | h <;> omega

/-- C1 (amended): after Cortex-M memory-map resolution, no surviving region of
an address space is contained in (in particular, is a duplicate of) another
surviving region of the same address space.  Partial overlaps, however, are not
removed (see the counterexample). -/
theorem resolved_no_containment
    (address_spaces : List DeviceAddressSpace) (sp : DeviceAddressSpace)
    (hsp : sp ∈ removeOverlappingMemory address_spaces) :
    List.Pairwise (fun a b => containedIn a b = false ∧ containedIn b a = false)
      sp.mem_regions := by
  rcases List.mem_map.mp hsp with ⟨sp0, _, rfl⟩
  have aux : List.Pairwise (fun a b =>
      a.name ∉ regionsToRemove sp0.mem_regions →
      b.name ∉ regionsToRemove sp0.mem_regions →
      containedIn a b = false ∧ containedIn b a = false) sp0.mem_regions :=
    pairwise_of_orderedPairs _ (fun _ _ hp ha hb => survivors_not_contained hp ha hb)
  have hfil := aux.sublist
    (@List.filter_sublist DeviceMemoryRegion
      (fun r => decide (r.name ∉ regionsToRemove sp0.mem_regions)) sp0.mem_regions)
  refine hfil.imp_of_mem ?_
  intro a b hamem hbmem hcond
  have ha := of_decide_eq_true (List.mem_filter.mp hamem).2
  have hb := of_decide_eq_true (List.mem_filter.mp hbmem).2
  exact hcond ha hb

/-- Witness for C1 (amended): a concrete resolved space on which the pairwise
no-containment invariant is obtained from the theorem. -/
theorem resolved_no_containment_witness :
    List.Pairwise (fun a b => containedIn a b = false ∧ containedIn b a = false)
      (DeviceAddressSpace.mk "data" 0 32 [rOv1, rOv2]).mem_regions :=
  resolved_no_containment [DeviceAddressSpace.mk "data" 0 32 [rOv1, rOv2]] _ (by decide)

/-- Counterexample to C1 as stated: two partially overlapping regions, neither
contained in the other, both survive resolution, and their `[start, end)`
intervals overlap, violating `end_i <= start_j or end_j <= start_i`. -/
theorem resolved_overlap_counterexample :
    removeOverlappingMemory [DeviceAddressSpace.mk "data" 0 32 [rOv1, rOv2]] =
      [DeviceAddressSpace.mk "data" 0 32 [rOv1, rOv2]] ∧
    ¬ (regionEnd rOv1 ≤ rOv2.start_addr ∨ regionEnd rOv2 ≤ rOv1.start_addr) := by
  decide

/-- C3: a region strictly contained in another region of the same address space
is always marked for removal (first conjunct, any space), and in a two-region
space the encompassing region is the sole survivor, in either file order
(second conjunct). -/
theorem contained_region_removed :
    (∀ (regions : List DeviceMemoryRegion) (a b : DeviceMemoryRegion),
        ((a, b) ∈ orderedPairs regions ∨ (b, a) ∈ orderedPairs regions) →
        containedIn a b = true →
        a.start_addr ≠ b.start_addr ∨ regionEnd a ≠ regionEnd b →
        a.name ∈ regionsToRemove regions) ∧
    (∀ (i : String) (s z : Nat) (a b : DeviceMemoryRegion),
        containedIn a b = true →
        (a.start_addr ≠ b.start_addr ∨ regionEnd a ≠ regionEnd b) →
        a.name ≠ b.name →
        removeOverlappingMemory [DeviceAddressSpace.mk i s z [b, a]] =
          [DeviceAddressSpace.mk i s z [b]] ∧
        removeOverlappingMemory [DeviceAddressSpace.mk i s z [a, b]] =
          [DeviceAddressSpace.mk i s z [b]]) := by
  constructor
  · intro regions a b hp hab hstrict
    have hba := not_containedIn_rev hab hstrict
    rcases hp with hp | hp
    · exact mem_regionsToRemove_of_pair hp (by simp [overlapRemovals, hab])
    · exact mem_regionsToRemove_of_pair hp (by simp [overlapRemovals, hba, hab])
  · intro i s z a b hab hstrict hname
    have hba := not_containedIn_rev hab hstrict
    have h1 : regionsToRemove [b, a] = [a.name] := by
      simp [regionsToRemove, orderedPairs, overlapRemovals, hab, hba]
    have h2 : regionsToRemove [a, b] = [a.name] := by
      simp [regionsToRemove, orderedPairs, overlapRemovals, hab]
    constructor
    · simp [removeOverlappingMemory, h1, List.filter, hname, Ne.symm hname]
    · simp [removeOverlappingMemory, h2, List.filter, hname, Ne.symm hname]

/-- Witness for C3: Scenario B, `IMEMORIES` at `[0x0, 0x100000)` containing
`SRAM0` at `[0x0, 0x10000)`: `SRAM0` is marked and only `IMEMORIES` survives. -/
theorem contained_region_removed_witness :
    rSRAM0.name ∈ regionsToRemove [rIMEM, rSRAM0] ∧
    removeOverlappingMemory [DeviceAddressSpace.mk "base" 0 0x200000 [rIMEM, rSRAM0]] =
      [DeviceAddressSpace.mk "base" 0 0x200000 [rIMEM]] :=
  ⟨contained_region_removed.1 [rIMEM, rSRAM0] rSRAM0 rIMEM
      (Or.inr (by decide)) (by decide) (by decide),
   (contained_region_removed.2 "base" 0 0x200000 rSRAM0 rIMEM
      (by decide) (by decide) (by decide)).1⟩

/-- C2 (amended): for two regions of one address space with identical absolute
start and end and distinct names, the MPU resolver keeps the first-seen region
as canonical and records the later name as its alias, while the Cortex-M
resolver removes the first-seen region, keeps the later one, and records no
alias. -/
theorem duplicate_region_resolution
    (i : String) (s z : Nat) (a b : DeviceMemoryRegion)
    (hstart : a.start_addr = b.start_addr) (hsize : a.size = b.size)
    (hname : a.name ≠ b.name) :
    mpuRemoveOverlappingMemory [DeviceAddressSpace.mk i s z [a, b]] =
      ([DeviceAddressSpace.mk i s z [a]], [(a.name, [b.name])]) ∧
    removeOverlappingMemory [DeviceAddressSpace.mk i s z [a, b]] =
      [DeviceAddressSpace.mk i s z [b]] := by
  have hend : regionEnd a = regionEnd b := by simp [regionEnd, hstart, hsize]
  have hab : containedIn a b = true := by
    simp only [containedIn, decide_eq_true_eq]
    exact ⟨Nat.le_of_eq hstart.symm, Nat.le_of_eq hend⟩
  constructor
  · simp only [mpuRemoveOverlappingMemory, mpuSpaceStep, orderedPairs, List.map_nil,
      List.map_cons, List.nil_append, List.append_nil, mpuPairLoop, List.not_mem_nil,
      if_false, hstart, hend, and_self, if_true, mpuFilterRegions, aliasAdd]
    simp [hname, Ne.symm hname, List.lookup]
  · have h1 : regionsToRemove [a, b] = [a.name] := by
      simp [regionsToRemove, orderedPairs, overlapRemovals, hab]
    simp [removeOverlappingMemory, h1, List.filter, hname, Ne.symm hname]

/-- Witness for C2 (amended): Scenario A, `FLASH` and `NVMCTRL_FLASH` both at
`[0x0, 0x40000)`: the MPU resolver keeps `FLASH` with alias `NVMCTRL_FLASH`;
the Cortex-M resolver keeps only `NVMCTRL_FLASH`. -/
theorem duplicate_region_resolution_witness :
    mpuRemoveOverlappingMemory [DeviceAddressSpace.mk "base" 0 0x100000 [rFLASH, rNVM]] =
      ([DeviceAddressSpace.mk "base" 0 0x100000 [rFLASH]],
        [("FLASH", ["NVMCTRL_FLASH"])]) ∧
    removeOverlappingMemory [DeviceAddressSpace.mk "base" 0 0x100000 [rFLASH, rNVM]] =
      [DeviceAddressSpace.mk "base" 0 0x100000 [rNVM]] :=
  duplicate_region_resolution "base" 0 0x100000 rFLASH rNVM rfl rfl (by decide)

/-- Counterexample to C2 as stated: on Scenario A the Cortex-M resolver (the
function the claim cites) does not keep the first-seen `FLASH`; the sole
surviving region of the address space is `NVMCTRL_FLASH`. -/
theorem duplicate_region_claim_counterexample :
    (removeOverlappingMemory
        [DeviceAddressSpace.mk "base" 0 0x100000 [rFLASH, rNVM]]).map
      (fun sp => sp.mem_regions.map DeviceMemoryRegion.name) = [["NVMCTRL_FLASH"]] := by
  decide

/-! Helper lemmas about the register-struct walk. -/

/-- The cursor trace starts at the incoming cursor. -/
theorem structTrace_head (mode : String) :
    ∀ (ms : List RegisterGroupMember) (c : Nat),
      (structTrace mode c ms).head? = some c := by
  intro ms
  induction ms with
  | nil => intro c; rfl
  | cons m rest ih =>
    intro c
    by_cases h : includeMember mode m = true
    · simp [structTrace, h]
    · simp [structTrace, h, ih]

/-- The cursor trace is never empty. -/
theorem structTrace_ne_nil (mode : String) :
    ∀ (ms : List RegisterGroupMember) (c : Nat), structTrace mode c ms ≠ [] := by
  intro ms
  induction ms with
  | nil => intro c; simp [structTrace]
  | cons m rest ih =>
    intro c
    by_cases h : includeMember mode m = true
    · simp [structTrace, h]
    · simp [structTrace, h, ih]

/-- The cursor trace ends at the walk's final cursor. -/
theorem structTrace_getLast (mode : String) :
    ∀ (ms : List RegisterGroupMember) (c : Nat),
      (structTrace mode c ms).getLast? = some ((structWalk mode c ms).2) := by
  intro ms
  induction ms with
  | nil => intro c; rfl
  | cons m rest ih =>
    intro c
    by_cases h : includeMember mode m = true
    · obtain ⟨t, T', hT⟩ := List.exists_cons_of_ne_nil
        (structTrace_ne_nil mode rest
          (m.offset + m.size * (if m.count ≠ 0 then m.count else 1)))
      simp only [structTrace, structWalk, h, if_true, hT, List.getLast?_cons_cons]
      rw [← hT, ih]
    · simp [structTrace, structWalk, h, ih]

/-- With no backwards member offsets the cursor trace never decreases. -/
theorem structTrace_chain (mode : String) :
    ∀ (ms : List RegisterGroupMember) (c : Nat),
      wellOrderedB mode c ms = true → List.Chain' (· ≤ ·) (structTrace mode c ms) := by
  intro ms
  induction ms with
  | nil => intro c _; simp [structTrace]
  | cons m rest ih =>
    intro c hw
    by_cases h : includeMember mode m = true
    · simp only [wellOrderedB, h, if_true, Bool.and_eq_true, decide_eq_true_eq] at hw
      simp only [structTrace, h, if_true]
      rw [List.chain'_cons']
      refine ⟨?_, ih _ hw.2⟩
      intro y hy
      rw [structTrace_head] at hy
      rw [Option.mem_some_iff] at hy
      subst hy
      exact le_trans hw.1 (Nat.le_add_right _ _)
    · simp only [wellOrderedB, h, if_false, Bool.if_false_left] at hw
      simp only [structTrace, h, if_false]
      exact ih c (by simpa using hw)

/-- With no backwards member offsets, every padding line the walk emits has a
positive byte count (padding appears exactly at the gaps where the member
starts strictly after the cursor). -/
theorem structWalk_pads_pos (mode : String) :
    ∀ (ms : List RegisterGroupMember) (c : Nat),
      wellOrderedB mode c ms = true →
      ∀ o gap, LayoutItem.pad o gap ∈ (structWalk mode c ms).1 → 0 < gap := by
  intro ms
  induction ms with
  | nil => intro c _ o gap hmem; simp [structWalk] at hmem
  | cons m rest ih =>
    intro c hw o gap hmem
    by_cases h : includeMember mode m = true
    · simp only [wellOrderedB, h, if_true, Bool.and_eq_true, decide_eq_true_eq] at hw
      simp only [structWalk, h, if_true, List.mem_append, List.mem_cons] at hmem
      rcases hmem with hp | hp | hp
      · by_cases hc : c ≠ m.offset
        · simp only [if_pos hc, List.mem_singleton, LayoutItem.pad.injEq] at hp
          obtain ⟨h1, rfl⟩ := hp
          have hlt : c < m.offset := lt_of_le_of_ne hw.1 hc
          omega
        · simp only [if_neg hc, List.not_mem_nil] at hp
      · simp at hp
      · exact ih _ hw.2 o gap hp
    · simp only [wellOrderedB, h, if_false] at hw
      simp only [structWalk, h, if_false] at hmem
      exact ih c hw o gap hmem

/-- The walk's total emitted byte extent always equals the cursor advance, even
with negative padding gaps. -/
theorem structWalk_extentSum (mode : String) :
    ∀ (ms : List RegisterGroupMember) (c : Nat),
      extentSum (structWalk mode c ms).1 =
        ((structWalk mode c ms).2 : Int) - (c : Int) := by
  intro ms
  induction ms with
  | nil => intro c; simp [structWalk, extentSum]
  | cons m rest ih =>
    intro c
    by_cases h : includeMember mode m = true
    · simp only [structWalk, h, if_true]
      have hrec := ih (m.offset + m.size * (if m.count ≠ 0 then m.count else 1))
      by_cases hc : c ≠ m.offset
      · simp only [if_pos hc, extentSum, List.map_append, List.map_cons,
          List.sum_append, List.sum_cons, List.map_nil, List.sum_nil, itemExtent] at *
        omega
      · simp only [if_neg hc, extentSum, List.map_append, List.map_cons,
          List.sum_append, List.sum_cons, List.map_nil, List.sum_nil, itemExtent] at *
        push_neg at hc
        subst hc
        omega
    · simp only [structWalk, h, if_false]
      exact ih c

/-- The members a walk emits are exactly the members passing the mode filter,
in file order. -/
theorem structWalk_entriesOf (mode : String) :
    ∀ (ms : List RegisterGroupMember) (c : Nat),
      entriesOf (structWalk mode c ms).1 = ms.filter (includeMember mode) := by
  intro ms
  induction ms with
  | nil => intro c; rfl
  | cons m rest ih =>
    intro c
    by_cases h : includeMember mode m = true
    · by_cases hc : c ≠ m.offset
      · simp [structWalk, h, if_pos hc, entriesOf, List.filter_cons, ih,
          List.filterMap_append]
        rw [← entriesOf, ih]
      · simp [structWalk, h, if_neg hc, entriesOf, List.filter_cons, ih]
        rw [← entriesOf, ih]
    · simp only [structWalk, h, Bool.false_eq_true, if_false]
      rw [ih c]
      simp [List.filter_cons, h]

/-- For a nonempty requested mode, the member filter of `_get_register_struct`
admits exactly the members with no mode or with the requested mode. -/
theorem includeMember_iff (mode : String) (hm : mode ≠ "") (m : RegisterGroupMember) :
    includeMember mode m = true ↔ (m.mode = "" ∨ m.mode = mode) := by
  simp only [includeMember, decide_eq_true_eq]
  constructor
  · intro h
    by_cases h1 : m.mode = ""
    · exact Or.inl h1
    · by_cases h2 : m.mode = mode
      · exact Or.inr h2
      · exact absurd ⟨hm, h1, fun he => h2 he.symm⟩ h
  · rintro (h | h) hc
    · exact hc.2.1 h
    · exact hc.2.2 h.symm

/-- C4 (amended): for members in file order with no backwards offsets (each
emitted member starts at or after the cursor), the walk's cursor trace is
monotonically non-decreasing and ends at the final cursor, every emitted
padding gap is positive (padding appears exactly where a member starts
strictly after the cursor), and the emitted extent equals the cursor advance
`member.offset + member.size * max(member.count, 1)` accumulated over the walk.
The final cursor is not bounded by the declared group size (see C5). -/
theorem register_layout_walk (g : RegisterGroup) (mode : String)
    (hw : wellOrderedB mode 0 g.members = true) :
    List.Chain' (· ≤ ·) (structTrace mode 0 g.members) ∧
    (structTrace mode 0 g.members).getLast? = some ((structWalk mode 0 g.members).2) ∧
    (∀ o gap, LayoutItem.pad o gap ∈ (structWalk mode 0 g.members).1 → 0 < gap) ∧
    extentSum (structWalk mode 0 g.members).1 =
      ((structWalk mode 0 g.members).2 : Int) := by
  refine ⟨structTrace_chain mode g.members 0 hw,
    structTrace_getLast mode g.members 0,
    structWalk_pads_pos mode g.members 0 hw, ?_⟩
  have h := structWalk_extentSum mode g.members 0
  simpa using h

/-- Witness for C4 (amended): the walk of `gTrail` (members at offsets 0 and 8)
satisfies all four conclusions. -/
theorem register_layout_walk_witness :
    List.Chain' (· ≤ ·) (structTrace "" 0 gTrail.members) ∧
    (structTrace "" 0 gTrail.members).getLast? = some ((structWalk "" 0 gTrail.members).2) ∧
    (∀ o gap, LayoutItem.pad o gap ∈ (structWalk "" 0 gTrail.members).1 → 0 < gap) ∧
    extentSum (structWalk "" 0 gTrail.members).1 =
      ((structWalk "" 0 gTrail.members).2 : Int) :=
  register_layout_walk gTrail "" (by decide)

/-- Counterexample to C4 as stated: with a member starting before the cursor
the walk emits a padding line with a negative byte count (so padding is not
emitted "exactly when member.offset > cursor"), the cursor trace 0, 8, 4 is not
monotone, and the final cursor 4 exceeds the declared group size 2. -/
theorem register_layout_walk_counterexample :
    structTrace "" 0 gBackwards.members = [0, 8, 4] ∧
    ¬ List.Chain' (· ≤ ·) (structTrace "" 0 gBackwards.members) ∧
    (structWalk "" 0 gBackwards.members).1 =
      [LayoutItem.pad 0 4, LayoutItem.entry (mkReg "R1" 4 4 0),
        LayoutItem.pad 8 (-8), LayoutItem.entry (mkReg "R2" 0 4 0)] ∧
    (structWalk "" 0 gBackwards.members).2 = 4 ∧
    gBackwards.size < (structWalk "" 0 gBackwards.members).2 := by
  have ht : structTrace "" 0 gBackwards.members = [0, 8, 4] := by decide
  refine ⟨ht, ?_, by decide, by decide, by decide⟩
  rw [ht]
  intro hch
  rw [List.chain'_cons, List.chain'_cons] at hch
  exact absurd hch.2.1 (by omega)

/-- C5 (amended): the struct builder appends trailing padding of
`group.size - cursor` bytes exactly when the declared size strictly exceeds the
final cursor, making the emitted extent `max(group.size, cursor)`; when the
members outgrow the declared size nothing is appended and no error of any kind
is raised - the function returns the oversized layout unchanged. -/
theorem register_struct_trailing_padding (g : RegisterGroup) (mode : String) :
    extentSum (registerStruct g mode).1 =
      max ((g.size : Int)) (((structWalk mode 0 g.members).2 : Int)) ∧
    ((structWalk mode 0 g.members).2 < g.size →
      (registerStruct g mode).1 =
        (structWalk mode 0 g.members).1 ++
          [LayoutItem.pad (structWalk mode 0 g.members).2
            ((g.size : Int) - ((structWalk mode 0 g.members).2 : Int))]) ∧
    (g.size ≤ (structWalk mode 0 g.members).2 →
      registerStruct g mode = structWalk mode 0 g.members) := by
  have hsum := structWalk_extentSum mode g.members 0
  by_cases hlt : (structWalk mode 0 g.members).2 < g.size
  · refine ⟨?_, fun _ => ?_, fun hle => absurd hlt (not_lt.mpr hle)⟩
    · simp only [registerStruct, if_pos hlt, extentSum, List.map_append,
        List.map_cons, List.map_nil, List.sum_append, List.sum_cons,
        List.sum_nil, itemExtent]
      simp only [extentSum] at hsum
      omega
    · simp [registerStruct, hlt]
  · refine ⟨?_, fun hl => absurd hl hlt, fun _ => ?_⟩
    · simp only [registerStruct, if_neg hlt]
      simp only [extentSum] at hsum ⊢
      omega
    · simp [registerStruct, hlt]

/-- Witness for C5 (amended): `gTrail` (size 24, members ending at 16) receives
the trailing pad; `gOverflow` (size 2, member ending at 4) is returned
unchanged without any failure. -/
theorem register_struct_trailing_padding_witness :
    (registerStruct gTrail "").1 =
      (structWalk "" 0 gTrail.members).1 ++
        [LayoutItem.pad (structWalk "" 0 gTrail.members).2
          ((gTrail.size : Int) - ((structWalk "" 0 gTrail.members).2 : Int))] ∧
    registerStruct gOverflow "" = structWalk "" 0 gOverflow.members :=
  ⟨(register_struct_trailing_padding gTrail "").2.1 (by decide),
   (register_struct_trailing_padding gOverflow "").2.2 (by decide)⟩

/-- Counterexample to C5 as stated: a group of declared size 2 whose single
member claims 4 bytes makes the builder return an ordinary layout with final
cursor 4 and no trailing padding; no `LayoutOverflowError` or failure of any
kind exists in the code. -/
theorem register_struct_overflow_counterexample :
    registerStruct gOverflow "" = ([LayoutItem.entry (mkReg "R" 0 4 0)], 4) ∧
    gOverflow.size = 2 := by
  decide

/-- C6: a group that declares modes yields one struct per declared mode wrapped
in a union over exactly those variants, and each nonempty mode's variant emits
exactly the members whose mode is empty or equals that mode, in file order. -/
theorem mode_variants_union (g : RegisterGroup) (hmodes : g.modes ≠ []) :
    registerGroupDefinition g =
      .modeUnion (g.modes.map (fun m => (m, registerStruct g m))) ∧
    ∀ mode, mode ≠ "" →
      entriesOf (structWalk mode 0 g.members).1 =
        g.members.filter (fun mem => decide (mem.mode = "" ∨ mem.mode = mode)) := by
  constructor
  · simp [registerGroupDefinition, hmodes]
  · intro mode hm
    rw [structWalk_entriesOf]
    apply List.filter_congr
    intro mem _
    by_cases hmem : mem.mode = "" ∨ mem.mode = mode
    · rw [decide_eq_true hmem, (includeMember_iff mode hm mem).mpr hmem]
    · rw [decide_eq_false hmem]
      cases hin : includeMember mode mem with
      | false => rfl
      | true => exact absurd ((includeMember_iff mode hm mem).mp hin) hmem

/-- Witness for C6: Scenario C, the SPI/I2C group of declared size 8: two
variants, each 4 bytes of padding followed by one 4-byte register, each with
final cursor 8. -/
theorem mode_variants_union_witness :
    registerGroupDefinition gScenC =
      GroupDef.modeUnion (gScenC.modes.map (fun m => (m, registerStruct gScenC m))) ∧
    entriesOf (structWalk "SPI" 0 gScenC.members).1 =
      gScenC.members.filter (fun mem => decide (mem.mode = "" ∨ mem.mode = "SPI")) ∧
    registerStruct gScenC "SPI" =
      ([LayoutItem.pad 0 4, LayoutItem.entry (mkModeReg "CTRL_SPI" "SPI" 4 4 0)], 8) ∧
    registerStruct gScenC "I2C" =
      ([LayoutItem.pad 0 4, LayoutItem.entry (mkModeReg "CTRL_I2C" "I2C" 4 4 0)], 8) :=
  ⟨(mode_variants_union gScenC (by decide)).1,
   (mode_variants_union gScenC (by decide)).2 "SPI" (by decide),
   by decide, by decide⟩

/-! Helper lemmas about the bitfield position derivation. -/

/-- Unfolding `ctz` at an odd number. -/
theorem ctz_of_odd {n : Nat} (h : n % 2 = 1) : ctz n = 0 := by
  have hn : n ≠ 0 := by omega
  rw [ctz]
  simp [hn, h]

/-- Unfolding `ctz` at a positive even number. -/
theorem ctz_of_even {n : Nat} (hn : n ≠ 0) (h : n % 2 = 0) :
    ctz n = ctz (n / 2) + 1 := by
  rw [ctz]
  simp [hn, h]

/-- For positive n, the Python idiom `n & -n` equals `n AND NOT (n-1)` by
two's-complement arithmetic. -/
theorem lowBit_eq_ldiff {n : Nat} (hn : n ≠ 0) : lowBit n = Nat.ldiff n (n - 1) := by
  obtain ⟨k, rfl⟩ := Nat.exists_eq_succ_of_ne_zero hn
  rfl

/-- The value `n AND NOT (n-1)` isolates the lowest set bit. -/
theorem ldiff_pred_eq_two_pow_ctz : ∀ n : Nat, n ≠ 0 →
    Nat.ldiff n (n - 1) = 2 ^ ctz n := by
  intro n
  induction n using Nat.strong_induction_on with
  | _ n ih =>
    intro hn
    by_cases hodd : n % 2 = 1
    · rw [ctz_of_odd hodd, pow_zero]
      apply Nat.eq_of_testBit_eq
      intro i
      rw [Nat.testBit_ldiff]
      cases i with
      | zero =>
        have h1 : (n - 1) % 2 = 0 := by omega
        simp [Nat.testBit_zero, hodd, h1]
      | succ i =>
        have hdiv : n / 2 = (n - 1) / 2 := by omega
        simp only [Nat.testBit_add_one, hdiv]
        simp
    · have heven : n % 2 = 0 := by omega
      have hk : n / 2 ≠ 0 := by omega
      rw [ctz_of_even hn heven, pow_succ]
      have ihk := ih (n / 2) (by omega) hk
      apply Nat.eq_of_testBit_eq
      intro i
      rw [Nat.testBit_ldiff]
      cases i with
      | zero =>
        have h2 : (2 ^ ctz (n / 2) * 2) % 2 = 0 := by omega
        simp [Nat.testBit_zero, heven, h2]
      | succ i =>
        simp only [Nat.testBit_add_one]
        have hd1 : (n - 1) / 2 = n / 2 - 1 := by omega
        have hd2 : 2 ^ ctz (n / 2) * 2 / 2 = 2 ^ ctz (n / 2) := by omega
        rw [hd1, hd2, ← Nat.testBit_ldiff, ihk]

/-- For a nonzero mask the Python `mask & -mask` is the lowest set bit. -/
theorem lowBit_eq_two_pow_ctz {n : Nat} (hn : n ≠ 0) : lowBit n = 2 ^ ctz n := by
  rw [lowBit_eq_ldiff hn, ldiff_pred_eq_two_pow_ctz n hn]

/-- For a nonzero mask, `(mask & -mask).bit_length() - 1` is the index of the
lowest set bit. -/
theorem bitfieldPos_eq_ctz {mask : Nat} (hm : mask ≠ 0) :
    bitfieldPos mask = (ctz mask : Int) := by
  rw [bitfieldPos, lowBit_eq_two_pow_ctz hm, Nat.size_pow]
  push_cast
  omega

/-- The bit at index `ctz n` is set. -/
theorem testBit_ctz_self : ∀ n : Nat, n ≠ 0 → Nat.testBit n (ctz n) = true := by
  intro n
  induction n using Nat.strong_induction_on with
  | _ n ih =>
    intro hn
    by_cases hodd : n % 2 = 1
    · rw [ctz_of_odd hodd, Nat.testBit_zero]
      simp [hodd]
    · have heven : n % 2 = 0 := by omega
      rw [ctz_of_even hn heven, Nat.testBit_add_one]
      exact ih (n / 2) (by omega) (by omega)

/-- Every bit below index `ctz n` is clear. -/
theorem testBit_lt_ctz : ∀ n : Nat, ∀ i, i < ctz n → Nat.testBit n i = false := by
  intro n
  induction n using Nat.strong_induction_on with
  | _ n ih =>
    intro i hi
    by_cases hn : n = 0
    · subst hn
      exact Nat.zero_testBit i
    · by_cases hodd : n % 2 = 1
      · rw [ctz_of_odd hodd] at hi
        exact absurd hi (Nat.not_lt_zero i)
      · have heven : n % 2 = 0 := by omega
        rw [ctz_of_even hn heven] at hi
        cases i with
        | zero =>
          rw [Nat.testBit_zero]
          simp [heven]
        | succ i =>
          rw [Nat.testBit_add_one]
          exact ih (n / 2) (by omega) i (by omega)

/-- The lowest set bit of an odd number shifted left by p is at index p. -/
theorem ctz_odd_mul_two_pow (x : Nat) (hx : x % 2 = 1) :
    ∀ p, ctz (x * 2 ^ p) = p := by
  intro p
  induction p with
  | zero =>
    exact ctz_of_odd (by simpa using hx)
  | succ p ihp =>
    have hmul : x * 2 ^ (p + 1) = x * 2 ^ p * 2 := by ring
    have hp1 : 1 ≤ (2:Nat) ^ p := Nat.one_le_two_pow
    have hne : x * 2 ^ (p + 1) ≠ 0 := by
      rw [hmul]
      have : 1 ≤ x := by omega
      nlinarith
    have heven : x * 2 ^ (p + 1) % 2 = 0 := by omega
    have hdiv : x * 2 ^ (p + 1) / 2 = x * 2 ^ p := by omega
    rw [ctz_of_even hne heven, hdiv, ihp]

/-- Round-trip law for contiguous masks: for any value below `2^w`, shifting it
to position p and masking with `(2^w - 1) << p` loses nothing. -/
theorem shiftLeft_and_mask {w p v : Nat} (hv : v < 2 ^ w) :
    (v <<< p) &&& ((2 ^ w - 1) <<< p) = v <<< p := by
  apply Nat.eq_of_testBit_eq
  intro j
  rw [Nat.testBit_and, Nat.testBit_shiftLeft, Nat.testBit_shiftLeft]
  by_cases hj : j ≥ p
  · rw [decide_eq_true hj]
    simp only [Bool.true_and]
    cases hb : Nat.testBit v (j - p) with
    | false => simp
    | true =>
      have hlt : j - p < w := by
        have hge := Nat.testBit_implies_ge hb
        have h2 : (2:Nat) ^ (j - p) < 2 ^ w := lt_of_le_of_lt hge hv
        exact (Nat.pow_lt_pow_iff_right (by omega)).mp h2
      simp [Nat.testBit_two_pow_sub_one, hlt]
  · simp [hj]

/-- A contiguous mask of w set bits starting at position p yields position p. -/
theorem bitfieldPos_contiguous (w p : Nat) (hw : 1 ≤ w) :
    bitfieldPos ((2 ^ w - 1) <<< p) = (p : Int) := by
  have hp1 : 1 ≤ (2:Nat) ^ (w - 1) := Nat.one_le_two_pow
  have h2 : (2:Nat) ^ w = 2 * 2 ^ (w - 1) := by
    conv_lhs => rw [show w = (w - 1) + 1 by omega]
    rw [pow_succ]
    ring
  have hodd : (2 ^ w - 1) % 2 = 1 := by omega
  have hne : (2 ^ w - 1) <<< p ≠ 0 := by
    rw [Nat.shiftLeft_eq]
    have hp2 : 1 ≤ (2:Nat) ^ p := Nat.one_le_two_pow
    have hm1 : 1 ≤ 2 ^ w - 1 := by omega
    nlinarith
  rw [bitfieldPos_eq_ctz hne, Nat.shiftLeft_eq, ctz_odd_mul_two_pow _ hodd p]

/-- C7 (amended): for every nonzero mask the derived position is the index of
the least-significant set bit (that bit is set and all lower bits are clear);
the round-trip law `(value << pos) & mask == value << pos` holds for every
value fitting the field's bit-width whenever the mask is a contiguous run of w
set bits at position p, and for such masks the derived position is p.  For
non-contiguous masks the round-trip law fails (see the counterexample). -/
theorem bitfield_pos_lowest_bit_and_roundtrip :
    (∀ mask : Nat, mask ≠ 0 →
      bitfieldPos mask = (ctz mask : Int) ∧
      Nat.testBit mask (ctz mask) = true ∧
      ∀ i, i < ctz mask → Nat.testBit mask i = false) ∧
    (∀ w p v : Nat, 1 ≤ w → v < 2 ^ w →
      bitfieldPos ((2 ^ w - 1) <<< p) = (p : Int) ∧
      (v <<< p) &&& ((2 ^ w - 1) <<< p) = v <<< p) :=
  ⟨fun mask hm =>
      ⟨bitfieldPos_eq_ctz hm, testBit_ctz_self mask hm, testBit_lt_ctz mask⟩,
   fun w p v hw hv =>
      ⟨bitfieldPos_contiguous w p hw, shiftLeft_and_mask hv⟩⟩

/-- Witness for C7 (amended): mask `0x30` is the contiguous mask of width 2 at
position 4; the position derivation and the round-trip at value 2 follow from
the theorem. -/
theorem bitfield_pos_lowest_bit_and_roundtrip_witness :
    bitfieldPos 0x30 = (ctz 0x30 : Int) ∧
    bitfieldPos ((2 ^ 2 - 1) <<< 4) = (4 : Int) ∧
    (2 <<< 4) &&& ((2 ^ 2 - 1) <<< 4) = 2 <<< 4 :=
  ⟨(bitfield_pos_lowest_bit_and_roundtrip.1 0x30 (by decide)).1,
   (bitfield_pos_lowest_bit_and_roundtrip.2 2 4 2 (by decide) (by decide)).1,
   (bitfield_pos_lowest_bit_and_roundtrip.2 2 4 2 (by decide) (by decide)).2⟩

/-- Counterexample to C7 as stated: the non-contiguous mask 5 = 0b101 has
derived position 0, and the value 3 - which fits the field's bit-width under
either reading (two set bits: 3 < 2^2; three spanned bits: 3 < 2^3) - does not
survive the round trip: `(3 << 0) & 5 = 1`, not 3. -/
theorem bitfield_roundtrip_counterexample :
    bitfieldPos 5 = 0 ∧ ¬ ((3 <<< 0) &&& 5 = 3 <<< 0) ∧ 3 < 2 ^ 2 := by
  refine ⟨?_, by decide, by decide⟩
  rw [bitfieldPos_eq_ctz (by decide), ctz_of_odd (by decide)]
  rfl

/-- C10: bitfield macro derivation is total at a zero mask: the position is
computed as `(mask & -mask).bit_length() - 1 = -1` with no error, and the
mask, position and value macros are all still emitted. -/
theorem zero_mask_bitfield_total :
    bitfieldPos 0 = -1 ∧
    bitfieldMacroDefs "FIELD" 0 =
      [("FIELD_Msk", MacroVal.num 0), ("FIELD_Pos", MacroVal.intval (-1)),
        ("FIELD(v)", MacroVal.shiftExpr 0 (-1))] := by
  have h0 : bitfieldPos 0 = -1 := by
    rw [bitfieldPos, show lowBit 0 = 0 by decide, Nat.size_zero]
    rfl
  refine ⟨h0, ?_⟩
  simp only [bitfieldMacroDefs, h0]
  decide

/-- C8 (amended): each fuse register (including every element of an array
register) receives a dedicated region at
`address-space start + instance offset + register offset + 4 * element index`,
always 4 bytes long - the element stride and region length are hard-coded to 4,
not taken from the element size; consecutive element regions do not overlap.
Scenario D (element size 4) evaluates to regions at 0x00800010, 0x00800014,
0x00800018, 0x0080001C, each of length 4. -/
theorem fuse_region_layout :
    (∀ (base_addr : Nat) (instance_name : String) (member : RegisterGroupMember),
      (fuseRegionsForMember base_addr instance_name member).map FuseRegion.origin =
        (List.range (max member.count 1)).map
          (fun i => base_addr + member.offset + 4 * i) ∧
      (∀ r ∈ fuseRegionsForMember base_addr instance_name member, r.length = 4) ∧
      List.Pairwise (fun r1 r2 => r1.origin + r1.length ≤ r2.origin)
        (fuseRegionsForMember base_addr instance_name member)) ∧
    (fuseMemoryRegions [spFusesD] fusePeriphD).map (fun l => l.map FuseRegion.origin) =
      some [0x00800010, 0x00800014, 0x00800018, 0x0080001C] ∧
    (fuseMemoryRegions [spFusesD] fusePeriphD).map (fun l => l.map FuseRegion.length) =
      some [4, 4, 4, 4] := by
  refine ⟨?_, by decide, by decide⟩
  intro base_addr instance_name member
  by_cases hc : member.count > 0
  · have hmax : max member.count 1 = member.count := by omega
    refine ⟨?_, ?_, ?_⟩
    · simp only [fuseRegionsForMember, if_pos hc, hmax, List.map_map]
      rfl
    · intro r hr
      simp only [fuseRegionsForMember, if_pos hc, List.mem_map] at hr
      obtain ⟨i, _, rfl⟩ := hr
      rfl
    · simp only [fuseRegionsForMember, if_pos hc, List.pairwise_map]
      refine (List.pairwise_lt_range member.count).imp ?_
      intro i j hij
      dsimp only
      omega
  · have hc0 : member.count = 0 := by omega
    refine ⟨?_, ?_, ?_⟩
    · rw [show member.count ⊔ 1 = 1 by omega, show List.range 1 = [0] from rfl]
      simp [fuseRegionsForMember, hc0]
    · intro r hr
      simp only [fuseRegionsForMember, hc0, gt_iff_lt, lt_irrefl, if_false,
        List.mem_singleton] at hr
      subst hr
      rfl
    · simp [fuseRegionsForMember, hc0]

/-- Counterexample to C8 as stated: a fuse register with element size 8 and
count 2.  The claim's formula places the second element at
`0x00800010 + 1 * 8 = 0x00800018` with 8-byte regions, but the emitted regions
sit at stride 4 (0x00800010, 0x00800014) with hard-coded length 4. -/
theorem fuse_region_stride_counterexample :
    (fuseMemoryRegions [spFusesD] fusePeriphBad).map (fun l => l.map FuseRegion.origin) =
      some [0x00800010, 0x00800014] ∧
    (fuseMemoryRegions [spFusesD] fusePeriphBad).map (fun l => l.map FuseRegion.length) =
      some [4, 4] ∧
    fuseMember8.size = 8 ∧
    (0x00800014 : Nat) ≠ 0x00800010 + 1 * fuseMember8.size := by
  refine ⟨by decide, by decide, by decide, by decide⟩

/-- Linker `ALIGN(8)` produces a multiple of 8. -/
theorem align8_dvd (n : Nat) : 8 ∣ align8 n :=
  dvd_mul_left 8 ((n + 7) / 8)

/-- Linker `ALIGN(8)` never moves the location counter backwards. -/
theorem le_align8 (n : Nat) : n ≤ align8 n := by
  unfold align8
  omega

/-- C9 (amended): the emitted script reserves the heap directly after `.bss`
at the bottom of free RAM and the stack at the top of RAM, each ALIGN(8)
aligned; the heap block covers the configured heap size; the generator itself
never fails - the `stackLimit >= heapLimit` invariant is delegated to the
emitted link-time `ASSERT`, whose condition holds for Scenario E with stack
0x400/heap 0xC00 in 0x8000 bytes of RAM and fails when the heap size is raised
to 0x8000. -/
theorem ram_reservation_plan :
    (∀ i : RamPlanInput,
      8 ∣ heapLimit i ∧ 8 ∣ stackLimit i ∧ 8 ∣ stackTop i ∧
      i.bss_end ≤ heapStart i ∧
      heapStart i + i.heap_size ≤ heapLimit i ∧
      (ramAssertHolds i = true ↔ heapLimit i ≤ stackLimit i)) ∧
    ramAssertHolds
      { ram_origin := 0, ram_length := 0x8000, bss_end := 0,
        heap_size := 0xC00, stack_size := 0x400, stackseal_size := 0 } = true ∧
    ramAssertHolds
      { ram_origin := 0, ram_length := 0x8000, bss_end := 0,
        heap_size := 0x8000, stack_size := 0x400, stackseal_size := 0 } = false := by
  refine ⟨?_, by decide, by decide⟩
  intro i
  refine ⟨align8_dvd _, align8_dvd _, align8_dvd _, le_align8 _, le_align8 _, ?_⟩
  simp [ramAssertHolds]

/-- Counterexample to C9 as stated: with RAM `[0, 0x8000)`, stack 0x400 and
heap 0xC00, the claim's top-of-RAM reservation would place the heap inside
`[0x7000, 0x8000)`, but the emitted script places it at `[0x0, 0xC00)`, far
below the top block; only the stack (`__StackLimit = 0x7C00`) sits at the top.
The generator returns this placement without any failure. -/
theorem heap_not_at_ram_top_counterexample :
    heapStart
      { ram_origin := 0, ram_length := 0x8000, bss_end := 0,
        heap_size := 0xC00, stack_size := 0x400, stackseal_size := 0 } = 0 ∧
    heapLimit
      { ram_origin := 0, ram_length := 0x8000, bss_end := 0,
        heap_size := 0xC00, stack_size := 0x400, stackseal_size := 0 } = 0xC00 ∧
    (0xC00 : Nat) < 0x7000 ∧
    stackLimit
      { ram_origin := 0, ram_length := 0x8000, bss_end := 0,
        heap_size := 0xC00, stack_size := 0x400, stackseal_size := 0 } = 0x7C00 := by
  decide

/-- Witness for C8 (amended): the Scenario D register (count 4) instantiates
the general per-member layout facts. -/
theorem fuse_region_layout_witness :
    (fuseRegionsForMember 0x00800000 "FUSES" fuseMember4).map FuseRegion.origin =
      (List.range (max fuseMember4.count 1)).map
        (fun i => 0x00800000 + fuseMember4.offset + 4 * i) ∧
    FuseRegion.length
      { name := "FUSES".toLower ++ "_" ++ "USERROW".toLower ++ toString (0 : Nat),
        origin := 0x00800010, length := 4 } = 4 ∧
    List.Pairwise (fun r1 r2 => r1.origin + r1.length ≤ r2.origin)
      (fuseRegionsForMember 0x00800000 "FUSES" fuseMember4) :=
  ⟨(fuse_region_layout.1 0x00800000 "FUSES" fuseMember4).1,
   (fuse_region_layout.1 0x00800000 "FUSES" fuseMember4).2.1 _ (by
      show _ ∈ fuseRegionsForMember 0x00800000 "FUSES" fuseMember4
      rw [fuseRegionsForMember, if_pos (by decide)]
      exact List.mem_map.mpr ⟨0, by decide, rfl⟩),
   (fuse_region_layout.1 0x00800000 "FUSES" fuseMember4).2.2⟩
